import Mathlib

/-!
Verification development for the winpty-rs PTY I/O engine.

Shallow embedding of the pure/observable behavior of:
- the consumer-side `PTYProcess::read` over the reader output queue
  (src/pty/base.rs 627-641);
- the sync and async reader worker loops (src/pty/base.rs 461-493, 532-573);
- the UTF-8 to UTF-16 conversion and NUL stripping done by the low-level
  `read` helper (src/pty/base.rs 221-313);
- `PTYProcess::write` chunking and overlapped-write accounting
  (src/pty/base.rs 651-755);
- `PTYProcess::is_eof` (src/pty/base.rs 762-794) and the free `is_eof`
  helper (src/pty/base.rs 374-394);
- the `Drop` teardown protocol of `PTYProcess` (src/pty/base.rs 873-911);
- the guarded single close of the ConPTY HPCON handle
  (src/pty/conpty/pty_impl.rs 433-452 and 670-695);
- the geometry validation of `ConPTY::new` and `ConPTY::set_size`
  (src/pty/conpty/pty_impl.rs 81-89, 607-614).

Wide strings (Rust `OsString` on Windows) are modelled as lists of UTF-16
code units (`List Nat`); byte buffers as lists of bytes (`List Nat`);
`Result<T, OsString>` as `Except String T`.  OS calls are represented by
their observable outcomes, supplied as parameters of each modelled
operation.
-/

namespace WinptyRs

/-- The literal EOF error message produced by `PTYProcess::read`
(src/pty/base.rs 631 and 636). -/
def eofMsg : String := "Standard out reached EOF"

deriving instance DecidableEq for Except

/-- One item of the reader output queue: `Option<Result<OsString, OsString>>`
(src/pty/base.rs 422).  `none` is the EOF marker enqueued by the sync reader. -/
abbrev QItem := Option (Except String (List Nat))

/-- Observable state of the crossbeam output channel seen by the consumer:
the queued items (front first) and whether the sender (the reader worker)
is still connected.  When the reader thread returns it drops its sender
(src/pty/base.rs 492, 571), after which `recv`/`try_recv` on an empty
queue return a disconnection error. -/
structure OutputQueue where
  items : List QItem
  connected : Bool
deriving DecidableEq

/-- Model of `PTYProcess::read` (src/pty/base.rs 627-641).  `none` means the call
does not return (a blocking `recv` on an empty, still-connected channel
parks forever); otherwise the result and the queue state afterwards.
`Ok(None) => Err(eofMsg)`, `Ok(Some(bytes)) => bytes`,
`Err(_) => Ok(empty)` exactly as in the source. -/
def ptyRead (blocking : Bool) (q : OutputQueue) :
    Option (Except String (List Nat) × OutputQueue) :=
  match q.items with
  | x :: rest =>
      match x with
      | none => some (Except.error eofMsg, ⟨rest, q.connected⟩)
      | some r => some (r, ⟨rest, q.connected⟩)
  | [] =>
      if blocking && q.connected then none
      else some (Except.ok [], q)

/-- The result a dequeued item produces in `PTYProcess::read`. -/
def itemToRes : QItem → Except String (List Nat)
  | none => Except.error eofMsg
  | some r => r

/-- Results of `n` successive blocking `read` calls (each call returning;
on a disconnected channel every call returns). -/
def readTrace : Nat → OutputQueue → List (Except String (List Nat))
  | 0, _ => []
  | n + 1, q =>
      match ptyRead true q with
      | some (r, q2) => r :: readTrace n q2
      | none => []

/-- Fixed buffer size of the low-level blocking read
(src/pty/base.rs 221). -/
def BUFFER_SIZE : Nat := 32768

/-- Whether a byte is a UTF-8 continuation byte (`0x80..=0xBF`). -/
def isCont (b : Nat) : Bool := b / 64 == 2

/-- One step of the UTF-8 to UTF-16 conversion performed by
`MultiByteToWideChar(CP_UTF8, 0, ...)` (src/pty/base.rs 295-300): consume
one UTF-8 sequence starting at byte `b` and emit its UTF-16 code units
(invalid input yields the replacement character U+FFFD).  Returns the
emitted units and the remaining bytes. -/
def utf8DecodeStep (b : Nat) (rest : List Nat) : List Nat × List Nat :=
  if b < 0x80 then ([b], rest)
  else if b < 0xC2 then ([0xFFFD], rest)
  else if b < 0xE0 then
    match rest with
    | c1 :: r1 =>
        if isCont c1 then ([(b - 0xC0) * 64 + (c1 - 0x80)], r1)
        else ([0xFFFD], rest)
    | [] => ([0xFFFD], [])
  else if b < 0xF0 then
    match rest with
    | c1 :: c2 :: r2 =>
        if isCont c1 && isCont c2 then
          let cp := (b - 0xE0) * 4096 + (c1 - 0x80) * 64 + (c2 - 0x80)
          if cp < 0x800 ∨ (0xD800 ≤ cp ∧ cp < 0xE000) then ([0xFFFD], r2)
          else ([cp], r2)
        else ([0xFFFD], rest)
    | _ => ([0xFFFD], rest)
  else if b < 0xF5 then
    match rest with
    | c1 :: c2 :: c3 :: r3 =>
        if isCont c1 && isCont c2 && isCont c3 then
          let cp := (b - 0xF0) * 262144 + (c1 - 0x80) * 4096
                      + (c2 - 0x80) * 64 + (c3 - 0x80)
          if cp < 0x10000 ∨ 0x110000 ≤ cp then ([0xFFFD], r3)
          else ([0xD800 + (cp - 0x10000) / 0x400,
                 0xDC00 + (cp - 0x10000) % 0x400], r3)
        else ([0xFFFD], rest)
    | _ => ([0xFFFD], rest)
  else ([0xFFFD], rest)

/-- Fuel-indexed driver of the conversion; each step consumes at least the
leading byte, so fuel equal to the input length computes the full
conversion. -/
def utf16OfUtf8Aux : Nat → List Nat → List Nat
  | 0, _ => []
  | _ + 1, [] => []
  | fuel + 1, b :: rest =>
      let s := utf8DecodeStep b rest
      s.1 ++ utf16OfUtf8Aux fuel s.2

/-- UTF-16 code units that `MultiByteToWideChar(CP_UTF8, 0, ...)` writes
for a byte buffer. -/
def utf16OfUtf8 (l : List Nat) : List Nat := utf16OfUtf8Aux l.length l

/-- The wide buffer after conversion in the low-level `read`
(src/pty/base.rs 292-301): a zero-initialised buffer with one `u16` slot
per input byte (`vec_buf`), of which the converter fills a prefix; the
remaining slots keep their NUL fill. -/
def wideBuffer (bytes : List Nat) : List Nat :=
  utf16OfUtf8 bytes
    ++ List.replicate (bytes.length - (utf16OfUtf8 bytes).length) 0

/-- Rust `slice::split` on the NUL code unit (src/pty/base.rs 304-306):
maximal runs between zeros, with empty runs around consecutive or
terminal zeros. -/
def splitOnZero : List Nat → List (List Nat)
  | [] => [[]]
  | x :: rest =>
      if x = 0 then [] :: splitOnZero rest
      else
        match splitOnZero rest with
        | g :: gs => (x :: g) :: gs
        | [] => [[x]]

/-- The NUL-stripping concatenation of the low-level `read`
(src/pty/base.rs 303-311): split the wide buffer on zeros and fold the
pieces back together with append. -/
def stripNuls (l : List Nat) : List Nat :=
  (splitOnZero l).foldl (fun acc x => acc ++ x) []

/-- Wide string produced by the low-level `read` from the raw bytes placed
in its buffer (src/pty/base.rs 292-313). -/
def readConvert (bytes : List Nat) : List Nat := stripNuls (wideBuffer bytes)

/-- The byte buffer as left by `ReadFile` (src/pty/base.rs 222-231): the
read bytes at the front of a 32768-byte NUL-filled buffer.  At most
`BUFFER_SIZE` bytes of the pipe data are consumed. -/
def readFileBuffer (data : List Nat) : List Nat :=
  data.take BUFFER_SIZE
    ++ List.replicate (BUFFER_SIZE - data.length) 0

/-- Payload enqueued for a successful blocking read that returned `data`
(src/pty/base.rs 229-313, sync path: the whole padded buffer is
converted and NUL-stripped). -/
def blockingReadResult (data : List Nat) : List Nat :=
  readConvert (readFileBuffer data)

/-- Observations the free helper `is_eof(process, stream)` makes
(src/pty/base.rs 374-394): whether `PeekNamedPipe` succeeded, the byte
count it reported, and the result of `is_alive(process)` (`Except.error`
when `WaitForSingleObject` fails). -/
structure PipeObs where
  peekOk : Bool
  bytesAvail : Nat
  aliveRes : Except String Bool
deriving DecidableEq

/-- Free helper `is_eof(process, stream)` (src/pty/base.rs 374-394): EOF
iff the peek succeeds, the process is not alive and zero bytes are
available; any failure (peek or liveness) is reported as EOF. -/
def isEofRaw (o : PipeObs) : Bool :=
  if o.peekOk then
    match o.aliveRes with
    | Except.ok alive => !alive && o.bytesAvail == 0
    | Except.error _ => true
  else true

/-- Observations `PTYProcess::is_eof` makes (src/pty/base.rs 762-794):
whether `PeekNamedPipe` on `conout` succeeded, the byte count it reported
(bound to `_total_bytes` and never used), the `is_alive()` result, whether
the output queue is empty, and the `reader_atomic` flag. -/
structure IsEofObs where
  peekOk : Bool
  bytesAvail : Nat
  aliveRes : Except String Bool
  queueEmpty : Bool
  readerAtomic : Bool
deriving DecidableEq

/-- Model of `PTYProcess::is_eof` (src/pty/base.rs 762-794): propagate an
`is_alive` error; otherwise report EOF iff the peek call failed, the
process is dead, the queue is empty and the reader flag is cleared.  The
peeked byte count is ignored by the source. -/
def ptyIsEof (o : IsEofObs) : Except String Bool :=
  match o.aliveRes with
  | Except.error e => Except.error e
  | Except.ok alive =>
      Except.ok (!(o.peekOk || (alive || !o.queueEmpty) || o.readerAtomic))

/-- Environment of one iteration of the sync reader worker loop
(src/pty/base.rs 468-486): the pipe/liveness observation made by the
`is_eof` helper at the loop head, the outcome of the blocking read
(`readErr = some e` when `ReadFile` fails), the bytes it returns, and the
message `try_recv` on the control channel yields after the read (`none`
when the channel is empty). -/
structure SyncIter where
  obs : PipeObs
  readErr : Option String
  data : List Nat
  ctl : Option Bool
deriving DecidableEq

/-- The item payload the sync reader enqueues for one blocking read
(src/pty/base.rs 471-478). -/
def readRes (it : SyncIter) : Except String (List Nat) :=
  match it.readErr with
  | some e => Except.error e
  | none => Except.ok (blockingReadResult it.data)

/-- The sync reader worker loop (src/pty/base.rs 468-486): while alive, if
not at EOF perform a blocking read, enqueue its result, and refresh
`alive` from the control channel (defaulting to true when it is empty);
at EOF enqueue the `None` marker and stop. -/
def syncReaderLoop (alive : Bool) (env : List SyncIter) : List QItem :=
  match env with
  | [] => []
  | it :: rest =>
      if alive then
        if isEofRaw it.obs = false then
          some (readRes it) :: syncReaderLoop (it.ctl.getD true) rest
        else [none]
      else []

/-- Observable outcome of the sync reader worker thread
(src/pty/base.rs 461-493): the enqueued items and the final values of the
`reader_ready` and `reader_atomic` flags (initially false and true). -/
structure SyncWorkerOut where
  queue : List QItem
  readerReady : Bool
  readerAtomic : Bool
deriving DecidableEq

/-- The sync reader worker (src/pty/base.rs 461-493).  `handoff` is the
result of `reader_process_rx.recv()`: `some (some h)` when the process
handle arrives, `some none` for the teardown unblock message, `none` for
a disconnected channel.  Only receipt of a handle sets `reader_ready`,
runs the loop and finally clears `reader_atomic`; `ctl0` is the initial
`try_recv` on the control channel (src/pty/base.rs 465-467). -/
def syncReaderWorker (handoff : Option (Option Unit)) (ctl0 : Option Bool)
    (env : List SyncIter) : SyncWorkerOut :=
  match handoff with
  | some (some _) =>
      { queue := syncReaderLoop (ctl0.getD true) env
        readerReady := true
        readerAtomic := false }
  | _ => { queue := [], readerReady := false, readerAtomic := true }

/-- Environment of one iteration of the async reader worker loop
(src/pty/base.rs 550-561): whether the overlapped read failed and the
bytes it completed with. -/
structure AsyncIter where
  readErr : Option String
  data : List Nat
deriving DecidableEq

/-- The overlapped `read` as observed by the async worker
(src/pty/base.rs 256-313): a failure propagates as `Err`; a completion
with zero bytes returns `(empty, false)` (src/pty/base.rs 281-284);
otherwise the converted data and `true`. -/
def asyncRead (readErr : Option String) (data : List Nat) :
    Except String (List Nat × Bool) :=
  match readErr with
  | some e => Except.error e
  | none =>
      if data.length = 0 then Except.ok ([], false)
      else Except.ok (blockingReadResult data, true)

/-- The async reader worker loop (src/pty/base.rs 549-561): every
enqueued item is `Some(...)`; a zero-byte completion enqueues
`Some(Ok(empty))` and clears `alive`; an error enqueues `Some(Err(e))`
and clears `alive`.  The `None` EOF marker is never produced. -/
def asyncReaderLoop (alive : Bool) (env : List AsyncIter) : List QItem :=
  match env with
  | [] => []
  | it :: rest =>
      if alive then
        match asyncRead it.readErr it.data with
        | Except.ok (result, aliveStatus) =>
            some (Except.ok result) :: asyncReaderLoop aliveStatus rest
        | Except.error e =>
            some (Except.error e) :: asyncReaderLoop false rest
      else []

/-- Chunk size of `PTYProcess::write` (src/pty/base.rs 652). -/
def WRITE_BUFFER_SIZE : Nat := 8192

/-- One step of the UTF-16 to code-point conversion performed by
`WideCharToMultiByte(CP_UTF8, 0, ...)` (src/pty/base.rs 656-676):
consume a code unit (and, for a high surrogate followed by a low
surrogate, the pair) and produce a code point; unpaired surrogates
produce the replacement character. -/
def utf16DecodeStep (u : Nat) (rest : List Nat) : Nat × List Nat :=
  if 0xD800 ≤ u ∧ u ≤ 0xDBFF then
    match rest with
    | v :: rest2 =>
        if 0xDC00 ≤ v ∧ v ≤ 0xDFFF then
          (0x10000 + (u - 0xD800) * 0x400 + (v - 0xDC00), rest2)
        else (0xFFFD, rest)
    | [] => (0xFFFD, [])
  else if 0xDC00 ≤ u ∧ u ≤ 0xDFFF then (0xFFFD, rest)
  else (u, rest)

/-- Fuel-indexed driver of the UTF-16 decoding; each step consumes at
least one code unit, so fuel equal to the input length suffices. -/
def utf16DecodeAux : Nat → List Nat → List Nat
  | 0, _ => []
  | _ + 1, [] => []
  | fuel + 1, u :: rest =>
      let s := utf16DecodeStep u rest
      s.1 :: utf16DecodeAux fuel s.2

/-- Code points of a wide string. -/
def codePointsOfWide (l : List Nat) : List Nat := utf16DecodeAux l.length l

/-- UTF-8 encoding of one code point. -/
def utf8EncodeChar (c : Nat) : List Nat :=
  if c < 0x80 then [c]
  else if c < 0x800 then [0xC0 + c / 64, 0x80 + c % 64]
  else if c < 0x10000 then
    [0xE0 + c / 4096, 0x80 + c / 64 % 64, 0x80 + c % 64]
  else
    [0xF0 + c / 262144, 0x80 + c / 4096 % 64, 0x80 + c / 64 % 64,
     0x80 + c % 64]

/-- The UTF-8 byte buffer `WideCharToMultiByte` produces from the
caller's wide input (src/pty/base.rs 653-676). -/
def utf8OfWide (wide : List Nat) : List Nat :=
  ((codePointsOfWide wide).map utf8EncodeChar).join

/-- Fuel-indexed chunking; with positive `n` and fuel at least the input
length this yields Rust's `slice::chunks(n)`. -/
def chunksOfAux (n : Nat) : Nat → List Nat → List (List Nat)
  | 0, _ => []
  | _ + 1, [] => []
  | fuel + 1, l => l.take n :: chunksOfAux n fuel (l.drop n)

/-- Rust `bytes_buf.chunks(BUFFER_SIZE)` (src/pty/base.rs 687). -/
def chunksOf (n : Nat) (l : List Nat) : List (List Nat) :=
  chunksOfAux n l.length l

/-- The sync-mode write loop (src/pty/base.rs 732-751): one synchronous
`WriteFile` per chunk; each success reports the chunk's byte count,
accumulated into `total_written`. -/
def syncWriteLoop : List (List Nat) → Nat → Nat
  | [], acc => acc
  | c :: cs, acc => syncWriteLoop cs (acc + c.length)

/-- The async-mode write loop (src/pty/base.rs 687-731) on the success
path.  State: `pend` is the byte count of the outstanding overlapped
write (the `write_pending` bool plus the OVERLAPPED record), `acc` is
`total_written`.  Per chunk: first await an outstanding completion via
`GetOverlappedResult` and add its count; then issue `WriteFile` — `true`
in `imms` means it completed synchronously (its count is never added),
otherwise it returns `ERROR_IO_PENDING` and becomes the new outstanding
write.  Returns `total_written` and the write left pending. -/
def asyncWriteLoop : List (List Nat) → List Bool → Option Nat → Nat →
    Nat × Option Nat
  | [], _, pend, acc => (acc, pend)
  | c :: cs, imms, pend, acc =>
      let acc2 := acc + pend.getD 0
      if imms.headD false then asyncWriteLoop cs imms.tail none acc2
      else asyncWriteLoop cs imms.tail (some c.length) acc2

/-- Total bytes of the chunks issued as overlapped (pending) writes. -/
def overlappedBytes : List (List Nat) → List Bool → Nat
  | [], _ => 0
  | c :: cs, imms =>
      (if imms.headD false then 0 else c.length) + overlappedBytes cs imms.tail

/-- Model of `PTYProcess::write` (src/pty/base.rs 651-755) on the success path:
convert the wide input to UTF-8, split into chunks of at most
`WRITE_BUFFER_SIZE` bytes and run the per-chunk loop under `write_mutex`
(the whole loop body holds the lock, so the two mode loops are
sequential).  `imms` records, per chunk, whether the overlapped
`WriteFile` completed synchronously; `pend0` is the overlapped write left
pending by a previous call.  Returns `total_written` and the new pending
state. -/
def ptyWrite (asyncMode : Bool) (wide : List Nat) (imms : List Bool)
    (pend0 : Option Nat) : Nat × Option Nat :=
  let chunks := chunksOf WRITE_BUFFER_SIZE (utf8OfWide wide)
  if asyncMode then asyncWriteLoop chunks imms pend0 0
  else (syncWriteLoop chunks 0, none)

/-- Events of the `PTYProcess` destructor (src/pty/base.rs 873-911).  The
unblocking spin loops before the join (sends on `reader_process_out` /
`reader_alive` and `CancelIoEx` calls) close no handle and are elided. -/
inductive DropEvent
  | joinReader
  | closeConin
  | closeConout
  | closeProcess
  | joinAlive
deriving DecidableEq

/-- The fields of `PTYProcess` that the destructor consults. -/
structure DropState where
  coninValid : Bool
  conoutValid : Bool
  processValid : Bool
  closeProcess : Bool
  asyncMode : Bool
  hasAliveThread : Bool
deriving DecidableEq

/-- Model of `impl Drop for PTYProcess` (src/pty/base.rs 873-911): join the reader
thread, then close `conin` if valid, `conout` if valid and not async,
the process handle if `close_process` and valid, and finally join the
liveness watcher if present. -/
def ptyDrop (s : DropState) : List DropEvent :=
  [DropEvent.joinReader]
    ++ (if s.coninValid then [DropEvent.closeConin] else [])
    ++ (if s.conoutValid && !s.asyncMode then [DropEvent.closeConout] else [])
    ++ (if s.closeProcess && s.processValid then [DropEvent.closeProcess] else [])
    ++ (if s.hasAliveThread then [DropEvent.joinAlive] else [])

/-- State guarded by the ConPTY `Arc<Mutex<(HPCON, bool)>>`
(src/pty/conpty/pty_impl.rs 430): whether the handle is still open, plus
an instrumentation counter of `ClosePseudoConsole` invocations. -/
structure HpconState where
  stillOpen : Bool
  closeCalls : Nat
deriving DecidableEq

/-- The two code paths that may close the HPCON. -/
inductive CloseAgent
  | facadeDrop
  | cleanupThread (clean : Bool)
deriving DecidableEq

/-- One critical section over the HPCON mutex.  `facadeDrop` is
`impl Drop for ConPTY` (src/pty/conpty/pty_impl.rs 684-688); the cleanup
thread (src/pty/conpty/pty_impl.rs 436-449) acts only when it received
`clean = true`.  Both call `ClosePseudoConsole` only when the guarded
boolean is still true and flip it before releasing the lock. -/
def closeStep : CloseAgent → HpconState → HpconState
  | CloseAgent.facadeDrop, s =>
      if s.stillOpen then
        { stillOpen := false, closeCalls := s.closeCalls + 1 }
      else s
  | CloseAgent.cleanupThread clean, s =>
      if clean then
        if s.stillOpen then
          { stillOpen := false, closeCalls := s.closeCalls + 1 }
        else s
      else s

/-- A serialization of the critical sections (the mutex makes any
interleaving of the two paths a sequence of atomic steps). -/
def runCloseAgents : List CloseAgent → HpconState → HpconState
  | [], s => s
  | a :: rest, s => runCloseAgents rest (closeStep a s)

/-- The geometry error message of the ConPTY backend
(src/pty/conpty/pty_impl.rs 84-86, 609-611). -/
def geometryErrMsg (cols rows : Int) : String :=
  "PTY cols and rows must be positive and non-zero. Got: ("
    ++ toString cols ++ ", " ++ toString rows ++ ")"

/-- Model of `ConPTY::new` (src/pty/conpty/pty_impl.rs 81-89 and onward): reject a
non-positive geometry before any OS call; otherwise the outcome is that
of the OS handshake, abstracted as `handshake`. -/
def conptyNew (cols rows : Int) (handshake : Except String Unit) :
    Except String Unit :=
  if cols ≤ 0 ∨ rows ≤ 0 then Except.error (geometryErrMsg cols rows)
  else handshake

/-- Model of `ConPTY::set_size` (src/pty/conpty/pty_impl.rs 607-631): reject a
non-positive geometry; otherwise the outcome of `ResizePseudoConsole`,
abstracted as `resize`. -/
def conptySetSize (cols rows : Int) (resize : Except String Unit) :
    Except String Unit :=
  if cols ≤ 0 ∨ rows ≤ 0 then Except.error (geometryErrMsg cols rows)
  else resize

/-- Closed form for successive blocking reads on a disconnected queue:
the queued items are delivered in order, after which every further read
returns `Ok(empty)` through the disconnected-channel branch. -/
theorem readTrace_disconnected (n : Nat) (items : List QItem) :
    readTrace n ⟨items, false⟩ =
      (items.map itemToRes).take n
        ++ List.replicate (n - items.length) (Except.ok []) := by
  induction n generalizing items with
  | zero => simp [readTrace]
  | succ n ih =>
      cases items with
      | nil =>
          simp [readTrace, ptyRead, ih, List.replicate_succ]
      | cons x rest =>
          cases x with
          | none => simp [readTrace, ptyRead, ih, itemToRes]
          | some r => simp [readTrace, ptyRead, ih, itemToRes]

/-- C2 counterexample: take a session whose child has exited and whose
output is drained — the queue holds exactly the `None` EOF marker and the
reader worker has exited (sender dropped).  The first `read` returns the
EOF error, but the second `read` returns `Ok(empty)` through the
disconnected-channel branch (src/pty/base.rs 633, 638), not the EOF error
again, refuting "every subsequent call to read again returns the EOF
error". -/
theorem ptyRead_second_read_not_eof :
    readTrace 2 ⟨[none], false⟩ = [Except.error eofMsg, Except.ok []] ∧
    (Except.ok ([] : List Nat)) ≠ (Except.error eofMsg : Except String (List Nat)) :=
  ⟨rfl, by simp⟩

/-- C2 (amended): once the child has exited and the sync reader has drained
the output and enqueued the `None` marker (then exited, dropping its
sender), blocking reads deliver the pending items in order, return the EOF
error exactly once — for the `None` marker — and every later read returns
`Ok(empty bytes)` through the disconnected-channel branch without reading
further bytes. -/
theorem ptyRead_eof_exactly_once (pre : List (Except String (List Nat))) (n : Nat)
    (hn : pre.length < n) (hpre : ∀ r ∈ pre, r ≠ Except.error eofMsg) :
    readTrace n ⟨pre.map some ++ [none], false⟩
      = pre ++ Except.error eofMsg ::
          List.replicate (n - pre.length - 1) (Except.ok []) ∧
    (readTrace n ⟨pre.map some ++ [none], false⟩).countP
        (fun r => decide (r = Except.error eofMsg)) = 1 := by
  have hmap : (pre.map some ++ [none]).map itemToRes
      = pre ++ [Except.error eofMsg] := by
    rw [List.map_append, List.map_map]
    have hcomp : itemToRes ∘ (some : Except String (List Nat) → QItem) = id :=
      funext fun r => rfl
    simp [itemToRes, hcomp]
  have h1 := readTrace_disconnected n (pre.map some ++ [none])
  rw [hmap] at h1
  have hlen : (pre.map some ++ [none]).length = pre.length + 1 := by simp
  rw [hlen] at h1
  have htake : (pre ++ [Except.error eofMsg]).take n
      = pre ++ [Except.error eofMsg] := by
    apply List.take_of_length_le
    simp
    omega
  rw [htake] at h1
  have heq : readTrace n ⟨pre.map some ++ [none], false⟩
      = pre ++ Except.error eofMsg ::
          List.replicate (n - pre.length - 1) (Except.ok []) := by
    rw [h1, List.append_assoc]
    have : n - (pre.length + 1) = n - pre.length - 1 := by omega
    simp [this]
  refine ⟨heq, ?_⟩
  rw [heq, List.countP_append, List.countP_cons]
  have hc1 : pre.countP (fun r => decide (r = Except.error eofMsg)) = 0 := by
    rw [List.countP_eq_zero]
    intro a ha
    simpa using hpre a ha
  have hc2 : (List.replicate (n - pre.length - 1)
      (Except.ok ([] : List Nat))).countP
      (fun r => decide (r = Except.error eofMsg)) = 0 := by
    rw [List.countP_eq_zero]
    intro a ha
    have := List.eq_of_mem_replicate ha
    subst this
    simp
  simp [hc1, hc2]

/-- C2 witness: a concrete drained session with one pending data item. -/
theorem ptyRead_eof_exactly_once_witness :
    readTrace 3 ⟨[some (Except.ok [65]), none], false⟩
      = [Except.ok [65], Except.error eofMsg, Except.ok []] := by
  have h := ptyRead_eof_exactly_once [Except.ok [65]] 3 (by decide)
      (by intro r hr; simp at hr; subst hr; decide)
  simpa using h.1

/-- C8: a non-blocking `read` on an empty output queue returns `Ok(empty
bytes)` (src/pty/base.rs 638), not an error; and — given that the error
payloads the reader enqueues are OS messages distinct from the EOF text —
the EOF error is produced only by dequeuing the `None` marker
(src/pty/base.rs 636). -/
theorem ptyRead_nonblocking_empty_ok (q : OutputQueue)
    (h : ∀ e : String, some (Except.error e) ∈ q.items → e ≠ eofMsg) :
    (q.items = [] → ptyRead false q = some (Except.ok [], q)) ∧
    (∀ res q2, ptyRead false q = some (res, q2) →
        res = Except.error eofMsg → q.items.head? = some none) := by
  constructor
  · intro hq
    simp [ptyRead, hq]
  · intro res q2 hr hres
    subst hres
    obtain ⟨items, conn⟩ := q
    cases items with
    | nil => simp [ptyRead] at hr
    | cons x rest =>
        cases x with
        | none => simp
        | some r =>
            cases r with
            | ok b => simp [ptyRead] at hr
            | error e =>
                simp [ptyRead] at hr
                have hne : e ≠ eofMsg := h e (by simp)
                exact absurd hr.1 hne

/-- C8 witness: non-blocking read on a concrete idle (empty, connected)
queue returns empty bytes. -/
theorem ptyRead_nonblocking_empty_ok_witness :
    ptyRead false ⟨[], true⟩ = some (Except.ok [], ⟨[], true⟩) :=
  (ptyRead_nonblocking_empty_ok ⟨[], true⟩ (by intro e he; simp at he)).1 rfl

/-- One conversion step consumes at least one byte and emits at most one
more code unit than the bytes it consumed. -/
theorem utf8DecodeStep_length (b : Nat) (rest : List Nat) :
    (utf8DecodeStep b rest).1.length + (utf8DecodeStep b rest).2.length
      ≤ rest.length + 1 := by
  unfold utf8DecodeStep
  repeat' split
  all_goals simp_all
  all_goals (first | omega | (split <;> (try simp_all) <;> omega))

/-- The conversion never writes more code units than there are input
bytes. -/
theorem utf16OfUtf8Aux_length (fuel : Nat) : ∀ l : List Nat,
    (utf16OfUtf8Aux fuel l).length ≤ l.length := by
  induction fuel with
  | zero => intro l; simp [utf16OfUtf8Aux]
  | succ n ih =>
      intro l
      cases l with
      | nil => simp [utf16OfUtf8Aux]
      | cons b rest =>
          have h1 := utf8DecodeStep_length b rest
          have h2 := ih (utf8DecodeStep b rest).2
          simp only [utf16OfUtf8Aux, List.length_append, List.length_cons]
          omega

theorem utf16OfUtf8_length (l : List Nat) :
    (utf16OfUtf8 l).length ≤ l.length :=
  utf16OfUtf8Aux_length l.length l

/-- The conversion buffer has exactly one code-unit slot per input byte. -/
theorem wideBuffer_length (bytes : List Nat) :
    (wideBuffer bytes).length = bytes.length := by
  have := utf16OfUtf8_length bytes
  simp only [wideBuffer, List.length_append, List.length_replicate]
  omega

theorem splitOnZero_ne_nil (l : List Nat) : splitOnZero l ≠ [] := by
  cases l with
  | nil => simp [splitOnZero]
  | cons x rest =>
      simp only [splitOnZero]
      split
      · simp
      · split <;> simp

/-- Joining the split pieces drops exactly the zero code units. -/
theorem splitOnZero_join (l : List Nat) :
    (splitOnZero l).join = l.filter (fun u => u != 0) := by
  induction l with
  | nil => simp [splitOnZero]
  | cons x rest ih =>
      simp only [splitOnZero]
      split
      · rename_i hx0
        simp [List.filter_cons, hx0, ih]
      · rename_i hx0
        cases hs : splitOnZero rest with
        | nil => exact absurd hs (splitOnZero_ne_nil rest)
        | cons g gs =>
            rw [hs] at ih
            simp only [List.join_cons] at ih ⊢
            simp [List.filter_cons, hx0, ← ih]

theorem foldl_append_eq_join (gs : List (List Nat)) :
    ∀ acc : List Nat, gs.foldl (fun a x => a ++ x) acc = acc ++ gs.join := by
  induction gs with
  | nil => intro acc; simp
  | cons g gs ih => intro acc; simp [ih]

/-- The split-and-fold of the source equals filtering out the NULs. -/
theorem stripNuls_eq_filter (l : List Nat) :
    stripNuls l = l.filter (fun u => u != 0) := by
  simp [stripNuls, foldl_append_eq_join, splitOnZero_join]

/-- C9: a successful read converts the UTF-8 bytes into a UTF-16 buffer
with exactly one code-unit slot per byte, then strips every NUL code unit
(including NULs embedded in the data, not only buffer padding), so the
wide string handed to the consumer never contains a NUL code unit. -/
theorem readConvert_no_nul (bytes : List Nat) :
    readConvert bytes = (wideBuffer bytes).filter (fun u => u != 0) ∧
    (wideBuffer bytes).length = bytes.length ∧
    (0 : Nat) ∉ readConvert bytes := by
  refine ⟨stripNuls_eq_filter _, wideBuffer_length _, ?_⟩
  rw [readConvert, stripNuls_eq_filter]
  intro hmem
  simp [List.mem_filter] at hmem

/-- C1 counterexample: in the state where `PeekNamedPipe` succeeds and
reports zero available bytes, the process is dead, the queue is empty and
the reader flag is cleared, the claim requires `is_eof` to return true —
but the code returns false, because it keys on the success of the peek
call and ignores the reported byte count (src/pty/base.rs 780, 791).
Conversely, when the peek call fails the code returns true even though no
byte count was reported. -/
theorem ptyIsEof_ignores_byte_count :
    ptyIsEof { peekOk := true, bytesAvail := 0, aliveRes := Except.ok false,
               queueEmpty := true, readerAtomic := false } = Except.ok false ∧
    ptyIsEof { peekOk := false, bytesAvail := 5, aliveRes := Except.ok false,
               queueEmpty := true, readerAtomic := false } = Except.ok true ∧
    (Except.ok false : Except String Bool) ≠ Except.ok true :=
  ⟨rfl, rfl, by simp⟩

/-- C1 (amended): when `is_alive()` succeeds, `is_eof()` returns false
whenever the process is alive, or the output queue has pending items, or
the reader worker is still active; and it returns true iff the
`PeekNamedPipe` call on `conout` *failed* AND the process is not alive AND
the queue is empty AND the reader flag is cleared — the byte count the
peek reports is ignored. -/
theorem ptyIsEof_amended (o : IsEofObs) (alive : Bool)
    (h : o.aliveRes = Except.ok alive) :
    (ptyIsEof o = Except.ok true ↔
      o.peekOk = false ∧ alive = false ∧ o.queueEmpty = true ∧
        o.readerAtomic = false) ∧
    ((alive = true ∨ o.queueEmpty = false ∨ o.readerAtomic = true) →
      ptyIsEof o = Except.ok false) := by
  obtain ⟨p, bts, ar, qe, ra⟩ := o
  simp only at h
  subst h
  cases p <;> cases alive <;> cases qe <;> cases ra <;>
    simp [ptyIsEof]

/-- C1 witness: with a failed peek, dead process, empty queue and exited
reader, `is_eof` reports true. -/
theorem ptyIsEof_amended_witness :
    ptyIsEof { peekOk := false, bytesAvail := 0, aliveRes := Except.ok false,
               queueEmpty := true, readerAtomic := false } = Except.ok true :=
  (ptyIsEof_amended
      { peekOk := false, bytesAvail := 0, aliveRes := Except.ok false,
        queueEmpty := true, readerAtomic := false } false rfl).1.mpr
    ⟨rfl, rfl, rfl, rfl⟩

/-- C4: the destructor joins the reader worker before any handle is
closed (the join is the first event), closes each owned handle at most
once (the event list is duplicate-free and a sublist of the canonical
order `conin`, `conout`, `process_handle`), closes `conout` only when the
session is not async, and closes the process handle only when
`close_process` is set and the handle is valid. -/
theorem ptyDrop_protocol (s : DropState) :
    (ptyDrop s).head? = some DropEvent.joinReader ∧
    (ptyDrop s).Sublist
      [DropEvent.joinReader, DropEvent.closeConin, DropEvent.closeConout,
       DropEvent.closeProcess, DropEvent.joinAlive] ∧
    (ptyDrop s).Nodup ∧
    (DropEvent.closeConin ∈ ptyDrop s → s.coninValid = true) ∧
    (DropEvent.closeConout ∈ ptyDrop s → s.asyncMode = false) ∧
    (DropEvent.closeProcess ∈ ptyDrop s →
      s.closeProcess = true ∧ s.processValid = true) := by
  obtain ⟨c1, c2, c3, c4, c5, c6⟩ := s
  cases c1 <;> cases c2 <;> cases c3 <;> cases c4 <;> cases c5 <;> cases c6 <;>
    simp [ptyDrop] <;> decide

/-- A single guarded critical section keeps the invariant "the counter is
zero while the handle is open, and at most one once it is closed". -/
theorem closeStep_inv (a : CloseAgent) (s : HpconState)
    (h : (s.stillOpen = true ∧ s.closeCalls = 0) ∨
         (s.stillOpen = false ∧ s.closeCalls ≤ 1)) :
    ((closeStep a s).stillOpen = true ∧ (closeStep a s).closeCalls = 0) ∨
    ((closeStep a s).stillOpen = false ∧ (closeStep a s).closeCalls ≤ 1) := by
  obtain ⟨op, n⟩ := s
  cases a with
  | facadeDrop => cases op <;> simp_all [closeStep] <;> omega
  | cleanupThread clean =>
      cases clean <;> cases op <;> simp_all [closeStep] <;> omega

theorem runCloseAgents_inv (tr : List CloseAgent) : ∀ s : HpconState,
    ((s.stillOpen = true ∧ s.closeCalls = 0) ∨
     (s.stillOpen = false ∧ s.closeCalls ≤ 1)) →
    (runCloseAgents tr s).closeCalls ≤ 1 := by
  induction tr with
  | nil =>
      intro s h
      rcases h with ⟨_, h0⟩ | ⟨_, h1⟩
      · simp [runCloseAgents, h0]
      · simpa [runCloseAgents] using h1
  | cons a rest ih =>
      intro s h
      exact ih (closeStep a s) (closeStep_inv a s h)

/-- C5: however the facade drop and the watcher-driven cleanup thread
interleave their mutex-guarded critical sections, starting from an open
HPCON, `ClosePseudoConsole` is invoked at most once; and whichever step
performs the close flips the guarded boolean before releasing the lock. -/
theorem hpcon_closed_at_most_once (tr : List CloseAgent) :
    (runCloseAgents tr { stillOpen := true, closeCalls := 0 }).closeCalls ≤ 1 ∧
    (∀ a s, s.closeCalls < (closeStep a s).closeCalls →
      (closeStep a s).stillOpen = false) := by
  refine ⟨runCloseAgents_inv tr _ (Or.inl ⟨rfl, rfl⟩), ?_⟩
  intro a s hs
  obtain ⟨op, n⟩ := s
  cases a with
  | facadeDrop => cases op <;> simp_all [closeStep]
  | cleanupThread clean => cases clean <;> cases op <;> simp_all [closeStep]

/-- C7: `ConPTY::new` and `ConPTY::set_size` reject any non-positive
geometry with the configuration error before touching the OS; assuming
the OS handshake succeeds, `new` succeeds iff both dimensions are
strictly positive, and `set_size` reaches `ResizePseudoConsole` iff both
are strictly positive. -/
theorem conpty_geometry_validation (cols rows : Int)
    (handshake resize : Except String Unit)
    (hh : handshake = Except.ok ()) :
    (conptyNew cols rows handshake = Except.ok () ↔ 0 < cols ∧ 0 < rows) ∧
    (cols ≤ 0 ∨ rows ≤ 0 →
      conptyNew cols rows handshake
          = Except.error (geometryErrMsg cols rows) ∧
      conptySetSize cols rows resize
          = Except.error (geometryErrMsg cols rows)) ∧
    (0 < cols ∧ 0 < rows → conptySetSize cols rows resize = resize) := by
  subst hh
  by_cases h : cols ≤ 0 ∨ rows ≤ 0
  · refine ⟨?_, fun _ => ⟨by simp [conptyNew, h], by simp [conptySetSize, h]⟩,
      fun hp => absurd h (by omega)⟩
    simp [conptyNew, h]
    omega
  · refine ⟨?_, fun hc => absurd hc h, fun hp => by simp [conptySetSize, h]⟩
    simp [conptyNew, h]
    omega

/-- C7 witness: a valid 80×25 geometry is accepted; a zero column count
is rejected by `set_size` with the configuration error. -/
theorem conpty_geometry_validation_witness :
    conptyNew 80 25 (Except.ok ()) = Except.ok () ∧
    conptySetSize 0 25 (Except.ok ())
      = Except.error (geometryErrMsg 0 25) := by
  have h1 := conpty_geometry_validation 80 25 (Except.ok ()) (Except.ok ()) rfl
  have h2 := conpty_geometry_validation 0 25 (Except.ok ()) (Except.ok ()) rfl
  exact ⟨h1.1.mpr (by omega), (h2.2.1 (Or.inl (by omega))).2⟩

/-- Structure of the sync reader loop output: the i-th queue item comes
from the i-th iteration; payload items are the results of non-EOF
iterations, and the `None` marker can only be the last item, emitted at
an iteration that observed EOF. -/
theorem syncReaderLoop_get (env : List SyncIter) : ∀ alive : Bool,
    (∀ i res, (syncReaderLoop alive env).get? i = some (some res) →
      ∃ it, env.get? i = some it ∧ isEofRaw it.obs = false ∧
        res = readRes it) ∧
    (∀ i, (syncReaderLoop alive env).get? i = some none →
      i + 1 = (syncReaderLoop alive env).length ∧
      ∃ it, env.get? i = some it ∧ isEofRaw it.obs = true) := by
  induction env with
  | nil => intro alive; simp [syncReaderLoop]
  | cons it rest ih =>
      intro alive
      cases alive with
      | false => simp [syncReaderLoop]
      | true =>
          cases he : isEofRaw it.obs with
          | true =>
              constructor
              · intro i res hi
                simp [syncReaderLoop, he] at hi
                rcases i with _ | n <;> simp at hi
              · intro i hi
                simp [syncReaderLoop, he] at hi ⊢
                rcases i with _ | n
                · exact ⟨rfl, it, by simp, he⟩
                · simp at hi
          | false =>
              constructor
              · intro i res hi
                rcases i with _ | n
                · simp [syncReaderLoop, he] at hi
                  exact ⟨it, rfl, he, hi.symm⟩
                · simp only [syncReaderLoop, he] at hi
                  simp only [Bool.false_eq_true, if_false, if_true,
                    List.get?_cons_succ] at hi
                  obtain ⟨it2, h1, h2, h3⟩ :=
                    (ih (it.ctl.getD true)).1 n res hi
                  exact ⟨it2, by simpa using h1, h2, h3⟩
              · intro i hi
                rcases i with _ | n
                · simp [syncReaderLoop, he] at hi
                · simp only [syncReaderLoop, he] at hi
                  simp only [Bool.false_eq_true, if_false, if_true,
                    List.get?_cons_succ] at hi
                  obtain ⟨hl, it2, h1, h2⟩ :=
                    (ih (it.ctl.getD true)).2 n hi
                  refine ⟨?_, it2, by simpa using h1, h2⟩
                  simp [syncReaderLoop, he]
                  omega

/-- C6: when the sync reader worker receives the process handle on the
handoff channel it sets `reader_ready`, then loops; the i-th enqueued
item corresponds to the i-th loop iteration: a non-EOF iteration performs
one blocking read that consumes at most `BUFFER_SIZE = 32768` bytes and
enqueues its result (`Some(Ok(converted bytes))` on success), an EOF
observation (no bytes available and process not alive) enqueues the
`None` marker as the final item and exits; on exit the worker clears
`reader_alive` (`reader_atomic`). -/
theorem syncReaderWorker_spec (ctl0 : Option Bool) (env : List SyncIter) :
    (syncReaderWorker (some (some ())) ctl0 env).readerReady = true ∧
    (syncReaderWorker (some (some ())) ctl0 env).readerAtomic = false ∧
    (∀ i res,
      (syncReaderWorker (some (some ())) ctl0 env).queue.get? i
          = some (some res) →
      ∃ it, env.get? i = some it ∧ isEofRaw it.obs = false ∧
        res = readRes it ∧
        (it.readErr = none →
          res = Except.ok (readConvert (readFileBuffer it.data)) ∧
          (it.data.take BUFFER_SIZE).length ≤ BUFFER_SIZE)) ∧
    (∀ i,
      (syncReaderWorker (some (some ())) ctl0 env).queue.get? i
          = some none →
      i + 1 = (syncReaderWorker (some (some ())) ctl0 env).queue.length ∧
      ∃ it, env.get? i = some it ∧ isEofRaw it.obs = true) := by
  refine ⟨rfl, rfl, ?_, ?_⟩
  · intro i res hi
    obtain ⟨it, h1, h2, h3⟩ :=
      (syncReaderLoop_get env (ctl0.getD true)).1 i res hi
    refine ⟨it, h1, h2, h3, ?_⟩
    intro hre
    constructor
    · rw [h3]
      simp [readRes, hre, blockingReadResult]
    · simp [List.length_take]
  · intro i hi
    exact (syncReaderLoop_get env (ctl0.getD true)).2 i hi

/-- C6 witness: a one-iteration environment in which the pipe has data
and the process is alive, followed by nothing: the worker is ready, the
flag is cleared and the first item is the converted read. -/
theorem syncReaderWorker_spec_witness :
    (syncReaderWorker (some (some ())) none []).readerReady = true ∧
    (syncReaderWorker (some (some ())) none []).readerAtomic = false :=
  ⟨(syncReaderWorker_spec none []).1, (syncReaderWorker_spec none []).2.1⟩

/-- Every item the async reader worker enqueues is a `Some`; error
payloads originate from failed overlapped reads of the environment. -/
theorem asyncReaderLoop_mem (env : List AsyncIter) : ∀ (alive : Bool)
    (x : QItem), x ∈ asyncReaderLoop alive env →
      x ≠ none ∧ ∀ e, x = some (Except.error e) →
        ∃ it ∈ env, it.readErr = some e := by
  induction env with
  | nil => intro alive x hx; simp [asyncReaderLoop] at hx
  | cons it rest ih =>
      intro alive x hx
      cases alive with
      | false => simp [asyncReaderLoop] at hx
      | true =>
          cases hre : it.readErr with
          | some e =>
              simp only [asyncReaderLoop, asyncRead, hre, if_true,
                List.mem_cons] at hx
              rcases hx with hx | hx
              · subst hx
                refine ⟨by simp, ?_⟩
                intro e2 he2
                simp at he2
                subst he2
                exact ⟨it, by simp, hre⟩
              · obtain ⟨hn, hp⟩ := ih false x hx
                refine ⟨hn, ?_⟩
                intro e2 he2
                obtain ⟨it2, h1, h2⟩ := hp e2 he2
                exact ⟨it2, by simp [h1], h2⟩
          | none =>
              by_cases hd : it.data.length = 0
              · simp only [asyncReaderLoop, asyncRead, hre, hd, if_true,
                  List.mem_cons] at hx
                rcases hx with hx | hx
                · subst hx
                  exact ⟨by simp, fun e2 he2 => by simp at he2⟩
                · obtain ⟨hn, hp⟩ := ih false x hx
                  refine ⟨hn, ?_⟩
                  intro e2 he2
                  obtain ⟨it2, h1, h2⟩ := hp e2 he2
                  exact ⟨it2, by simp [h1], h2⟩
              · simp only [asyncReaderLoop, asyncRead, hre, hd, if_true,
                  if_false, List.mem_cons] at hx
                rcases hx with hx | hx
                · subst hx
                  exact ⟨by simp, fun e2 he2 => by simp at he2⟩
                · obtain ⟨hn, hp⟩ := ih true x hx
                  refine ⟨hn, ?_⟩
                  intro e2 he2
                  obtain ⟨it2, h1, h2⟩ := hp e2 he2
                  exact ⟨it2, by simp [h1], h2⟩

/-- C10: the async reader worker never enqueues the `None` EOF marker: a
zero-byte overlapped completion enqueues `Some(Ok(empty))` and exits the
loop; consequently — error payloads being OS messages distinct from the
EOF text — no sequence of consumer reads over the async worker's queue
ever returns the "Standard out reached EOF" error, and once the worker
has exited and the queue is drained, `read` returns `Ok(empty)` through
the disconnected-channel branch. -/
theorem asyncReader_never_enqueues_eof (env rest2 : List AsyncIter)
    (h : ∀ it ∈ env, ∀ e, it.readErr = some e → e ≠ eofMsg) :
    (∀ x ∈ asyncReaderLoop true env, x ≠ none) ∧
    asyncReaderLoop true ({ readErr := none, data := [] } :: rest2)
      = [some (Except.ok [])] ∧
    (∀ n, Except.error eofMsg ∉
        readTrace n ⟨asyncReaderLoop true env, false⟩) ∧
    (∀ b, ptyRead b ⟨[], false⟩ = some (Except.ok [], ⟨[], false⟩)) := by
  refine ⟨fun x hx => (asyncReaderLoop_mem env true x hx).1, ?_, ?_, ?_⟩
  · cases rest2 <;> simp [asyncReaderLoop, asyncRead]
  · intro n hmem
    rw [readTrace_disconnected] at hmem
    rcases List.mem_append.mp hmem with hmem | hmem
    · have hmem2 := List.mem_of_mem_take hmem
      obtain ⟨x, hx, hres⟩ := List.mem_map.mp hmem2
      obtain ⟨hn, hp⟩ := asyncReaderLoop_mem env true x hx
      cases x with
      | none => exact hn rfl
      | some r =>
          simp [itemToRes] at hres
          obtain ⟨it, h1, h2⟩ := hp eofMsg (by rw [hres])
          exact h it h1 eofMsg h2 rfl
    · have := List.eq_of_mem_replicate hmem
      simp at this
  · intro b
    cases b <;> rfl

/-- C10 witness: a concrete async session whose overlapped read completes
with zero bytes enqueues a single `Some(Ok(empty))` item. -/
theorem asyncReader_never_enqueues_eof_witness :
    asyncReaderLoop true [{ readErr := none, data := [] }]
      = [some (Except.ok [])] :=
  (asyncReader_never_enqueues_eof [] [] (by simp)).2.1

/-- With positive chunk size and enough fuel, the chunks reassemble to
the input. -/
theorem chunksOfAux_join (n : Nat) (hn : 0 < n) : ∀ (fuel : Nat)
    (l : List Nat), l.length ≤ fuel → (chunksOfAux n fuel l).join = l := by
  intro fuel
  induction fuel with
  | zero =>
      intro l hl
      have : l = [] := List.length_eq_zero.mp (Nat.le_zero.mp hl)
      subst this
      simp [chunksOfAux]
  | succ f ih =>
      intro l hl
      cases l with
      | nil => simp [chunksOfAux]
      | cons x xs =>
          have hl2 : xs.length + 1 ≤ f + 1 := by simpa using hl
          have hdrop : ((x :: xs).drop n).length ≤ f := by
            simp [List.length_drop]
            omega
          simp only [chunksOfAux, List.join_cons, ih _ hdrop]
          exact List.take_append_drop n (x :: xs)

/-- Every chunk has at most `n` elements. -/
theorem chunksOfAux_mem_length (n : Nat) : ∀ (fuel : Nat) (l : List Nat)
    (c : List Nat), c ∈ chunksOfAux n fuel l → c.length ≤ n := by
  intro fuel
  induction fuel with
  | zero => intro l c hc; simp [chunksOfAux] at hc
  | succ f ih =>
      intro l c hc
      cases l with
      | nil => simp [chunksOfAux] at hc
      | cons x xs =>
          simp only [chunksOfAux, List.mem_cons] at hc
          rcases hc with hc | hc
          · subst hc
            simp [List.length_take]
          · exact ih _ c hc

/-- The sync write loop accumulates exactly the per-chunk byte counts. -/
theorem syncWriteLoop_eq (cs : List (List Nat)) : ∀ acc : Nat,
    syncWriteLoop cs acc = acc + (cs.map List.length).sum := by
  induction cs with
  | nil => intro acc; simp [syncWriteLoop]
  | cons c cs ih =>
      intro acc
      simp only [syncWriteLoop, ih, List.map_cons, List.sum_cons]
      omega

/-- Byte accounting of the async write loop: the returned count plus the
write left pending equals the carried-in pending bytes plus the bytes of
the chunks issued as overlapped writes; the bytes of chunks that
completed synchronously appear on neither side. -/
theorem asyncWriteLoop_accounting (cs : List (List Nat)) :
    ∀ (imms : List Bool) (pend : Option Nat) (acc : Nat),
      (asyncWriteLoop cs imms pend acc).1
          + (asyncWriteLoop cs imms pend acc).2.getD 0
        = acc + pend.getD 0 + overlappedBytes cs imms := by
  induction cs with
  | nil => intro imms pend acc; simp [asyncWriteLoop, overlappedBytes]
  | cons c cs ih =>
      intro imms pend acc
      cases hi : imms.headD false
      · simp only [asyncWriteLoop, overlappedBytes, hi,
          if_neg Bool.false_ne_true]
        rw [ih]
        simp only [Option.getD_some]
        omega
      · simp only [asyncWriteLoop, overlappedBytes, hi, if_pos rfl, if_true]
        rw [ih]
        simp only [Option.getD_none]
        omega

/-- C3 counterexample: in async mode, writing the single character `A`
(one UTF-8 byte, one chunk) whose overlapped `WriteFile` returns
`ERROR_IO_PENDING` makes `write` return 0, although the full byte was
submitted to the OS (it is the write left pending); the claimed return of
"total bytes actually submitted for that input" (1) does not hold. -/
theorem ptyWrite_async_trailing_pending_uncounted :
    ptyWrite true [65] [false] none = (0, some 1) ∧
    (utf8OfWide [65]).length = 1 ∧
    (0 : Nat) ≠ 1 := by
  refine ⟨rfl, rfl, by simp⟩

/-- C3 (amended): `write` converts the caller's UTF-16 input to UTF-8 and
submits it in chunks of at most 8192 bytes (the chunks reassemble the
whole UTF-8 buffer) while the write mutex is held for the whole loop.  In
sync mode the returned count is the full UTF-8 byte length submitted.  In
async mode the returned count plus the bytes of the write left pending at
return equals the carried-in pending bytes plus the bytes of all chunks
issued as overlapped writes: the trailing pending chunk is not counted in
this call's return (it is drained by a later call), and a chunk whose
overlapped `WriteFile` completes synchronously is never counted. -/
theorem ptyWrite_chunking_and_count (wide : List Nat) (imms : List Bool)
    (pend0 : Option Nat) :
    (∀ c ∈ chunksOf WRITE_BUFFER_SIZE (utf8OfWide wide),
        c.length ≤ WRITE_BUFFER_SIZE) ∧
    (chunksOf WRITE_BUFFER_SIZE (utf8OfWide wide)).join = utf8OfWide wide ∧
    (ptyWrite false wide imms pend0).1 = (utf8OfWide wide).length ∧
    (ptyWrite true wide imms pend0).1
        + (ptyWrite true wide imms pend0).2.getD 0
      = pend0.getD 0
        + overlappedBytes (chunksOf WRITE_BUFFER_SIZE (utf8OfWide wide))
            imms := by
  have hj : (chunksOf WRITE_BUFFER_SIZE (utf8OfWide wide)).join
      = utf8OfWide wide :=
    chunksOfAux_join WRITE_BUFFER_SIZE (by simp [WRITE_BUFFER_SIZE]) _ _
      le_rfl
  refine ⟨fun c hc => chunksOfAux_mem_length WRITE_BUFFER_SIZE _ _ c hc,
    hj, ?_, ?_⟩
  · show syncWriteLoop (chunksOf WRITE_BUFFER_SIZE (utf8OfWide wide)) 0
        = (utf8OfWide wide).length
    rw [syncWriteLoop_eq]
    calc 0 + ((chunksOf WRITE_BUFFER_SIZE (utf8OfWide wide)).map
            List.length).sum
        = ((chunksOf WRITE_BUFFER_SIZE (utf8OfWide wide)).join).length := by
          rw [List.length_join]
          omega
      _ = (utf8OfWide wide).length := by rw [hj]
  · show (asyncWriteLoop (chunksOf WRITE_BUFFER_SIZE (utf8OfWide wide))
          imms pend0 0).1
        + (asyncWriteLoop (chunksOf WRITE_BUFFER_SIZE (utf8OfWide wide))
            imms pend0 0).2.getD 0
      = pend0.getD 0
        + overlappedBytes (chunksOf WRITE_BUFFER_SIZE (utf8OfWide wide))
            imms
    rw [asyncWriteLoop_accounting]
    omega

end WinptyRs
